import Mathlib

/-
Verification of the SweetBite bakery backend's inventory stock ledger and
automatic consumption engine.

The development shallowly embeds the Python source:
- `orders/signals.py` — the post_save consumption engine
  (`deduct_ingredients_on_order_confirmation`, `deduct_ingredients_for_cake`);
- `inventory/views.py` — the manual deduction endpoint
  (`IngredientViewSet.deduct_stock`), the procurement receipt endpoint
  (`PurchaseOrderViewSet.receive_items`) and the availability check
  (`RecipeViewSet.check_availability`).

Decimal quantities are embedded as rationals (`Rat`): the Python code uses
`decimal.Decimal` whose additions, subtractions and multiplications on these
magnitudes are exact, so `Rat` is a faithful model. Django querysets are
embedded as Lean lists in creation order; saving a model instance is explicit
state passing.
-/

set_option allowUnsafeReducibility true
attribute [local semireducible] Rat.sub Rat.mul Rat.add Rat.inv

namespace SweetBite

/-- A stock movement record, one row of the append-only ledger
(`inventory.models.StockMovement` as populated by the code under study).
The movement kind is the literal string the source stores
(`'in'`, `'out'`, `'waste'`, `'adjustment'`). -/
structure Movement where
  ingredientName : String
  movement_type : String
  quantity : Rat
  previous_stock : Rat
  new_stock : Rat
  unit_cost : Rat
  total_value : Rat
  reference : String
deriving DecidableEq

/-- The signed delta a movement applies to the balance: `in` movements add
their quantity, every other kind (`out`, `waste`, `adjustment` as used by the
deduction paths) subtracts it. -/
def signedDelta (m : Movement) : Rat :=
  if m.movement_type = "in" then m.quantity else -m.quantity

/-- The ingredient stock register row (`inventory.models.Ingredient`), the
fields the studied code reads and writes. -/
structure Ingredient where
  name : String
  current_stock : Rat
  minimum_stock : Rat
  unit_cost : Rat
deriving DecidableEq

/-- One entry of a cake's loosely-typed `ingredients` JSON list in
`orders/signals.py`: `{'name': ..., 'quantity': ..., 'unit': ...}`. -/
structure RecipeLine where
  name : String
  quantity : Rat
  unit : String
deriving DecidableEq

/-- Case folding of an ingredient name, the comparison key of Django's
`name__iexact` lookup. -/
def lowerName (s : String) : List Char :=
  s.data.map Char.toLower

/-- `Ingredient.objects.get(name__iexact=...)` together with the
`MultipleObjectsReturned` fallback `.filter(name__iexact=...).first()`:
the first ingredient whose name matches case-insensitively, if any. -/
def findIngredient (inv : List Ingredient) (nm : String) : Option Ingredient :=
  inv.find? (fun i => lowerName i.name == lowerName nm)

/-- `ingredient.save()`: writing an updated ingredient row back into the
inventory (the row is identified by its case-insensitive name, which the
update never changes). -/
def updateIngredient (inv : List Ingredient) (upd : Ingredient) : List Ingredient :=
  inv.map (fun i => if lowerName i.name == lowerName upd.name then upd else i)

/-- The per-ingredient core of `deduct_ingredients_for_cake`
(`orders/signals.py` lines 84–111): clamp the requested quantity to the
available stock, and if the clamped amount is positive, write the new balance
and produce the `out` movement. Returns the updated ingredient, the movement
(if any) and the shortage the warning reports (`required - available` when
stock is insufficient, else `0`). -/
def orderLineDeduct (ing : Ingredient) (needed : Rat) (orderNumber : String) :
    Ingredient × Option Movement × Rat :=
  let shortage := if ing.current_stock < needed then needed - ing.current_stock else 0
  let applied := if ing.current_stock < needed then ing.current_stock else needed
  if 0 < applied then
    let prev := ing.current_stock
    let nw := max 0 (prev - applied)
    ({ ing with current_stock := nw },
     some { ingredientName := ing.name
            movement_type := "out"
            quantity := applied
            previous_stock := prev
            new_stock := nw
            unit_cost := ing.unit_cost
            total_value := applied * ing.unit_cost
            reference := "ORDER-" ++ orderNumber },
     shortage)
  else
    (ing, none, shortage)

/-- One iteration of the ingredient loop of `deduct_ingredients_for_cake`:
skip blank names and non-positive quantities, skip names that resolve to no
ingredient (warning only), otherwise deduct `quantity × orderQty` through
`orderLineDeduct` and append the movement to the ledger. -/
def deductLine (orderQty : Rat) (orderNumber : String)
    (st : List Ingredient × List Movement) (line : RecipeLine) :
    List Ingredient × List Movement :=
  if line.name = "" ∨ line.quantity ≤ 0 then st
  else
    match findIngredient st.1 line.name with
    | none => st
    | some ing =>
      let r := orderLineDeduct ing (line.quantity * orderQty) orderNumber
      match r.2.1 with
      | none => st
      | some mv => (updateIngredient st.1 r.1, st.2 ++ [mv])

/-- A sellable cake (`cakes.models.Cake`) as the consumption engine sees it:
its name and its `ingredients` JSON list. -/
structure Cake where
  name : String
  ingredients : List RecipeLine
deriving DecidableEq

/-- `deduct_ingredients_for_cake(cake, quantity, order, system_user)` from
`orders/signals.py`: if the cake has no ingredients defined the function only
warns and returns; otherwise every recipe line is processed in order. -/
def deduct_ingredients_for_cake (cake : Cake) (quantity : Rat)
    (orderNumber : String) (st : List Ingredient × List Movement) :
    List Ingredient × List Movement :=
  if cake.ingredients.isEmpty then st
  else cake.ingredients.foldl (deductLine quantity orderNumber) st

/-- One order line item (`orders.models.OrderItem`): a cake and a count. -/
structure OrderItem where
  cake : Cake
  quantity : Rat
deriving DecidableEq

/-- The order fields the signal handler reads (`orders.models.Order`). -/
structure Order where
  id : Nat
  order_number : String
  order_status : String
  items : List OrderItem
deriving DecidableEq

/-- The post_save handler `deduct_ingredients_on_order_confirmation` from
`orders/signals.py`. Its idempotency guard is
`hasattr(instance, '_ingredients_deducted')`, an attribute of the in-memory
`Order` instance; `flags` models the set of order ids whose live instances in
the current process carry that attribute. A process restart (or re-fetching
the order from the database) is modelled by resuming with `flags = []`.
The handler assumes an admin/inventory-manager system user exists (otherwise
the source returns having done nothing). -/
def deduct_ingredients_on_order_confirmation (flags : List Nat) (order : Order)
    (st : List Ingredient × List Movement) :
    List Nat × List Ingredient × List Movement :=
  if order.order_status = "confirmed" ∨ order.order_status = "preparing" then
    if order.id ∈ flags then (flags, st)
    else
      let r := order.items.foldl
        (fun s it => deduct_ingredients_for_cake it.cake it.quantity order.order_number s) st
      (order.id :: flags, r)
  else (flags, st)

/-- The `amount` field of a manual deduction request, as the endpoint can
receive it: absent, non-numeric text, or a number. -/
inductive Amount where
  | missing : Amount
  | nonNumeric : Amount
  | num : Rat → Amount
deriving DecidableEq

/-- `IngredientViewSet.deduct_stock` from `inventory/views.py` (lines
642–716), for an authorized caller: reject a missing amount, a non-numeric
amount, a non-positive amount, and an amount exceeding the current stock;
otherwise write the reduced balance and the `out` movement with a
`MANUAL-<timestamp>` reference. Returns the ingredient, the movement written
(if any) and whether the request succeeded. -/
def deduct_stock (ing : Ingredient) (amount : Amount) (now : String) :
    Ingredient × Option Movement × Bool :=
  match amount with
  | .missing => (ing, none, false)
  | .nonNumeric => (ing, none, false)
  | .num a =>
    if a ≤ 0 then (ing, none, false)
    else if ing.current_stock < a then (ing, none, false)
    else
      let prev := ing.current_stock
      let nw := prev - a
      ({ ing with current_stock := nw },
       some { ingredientName := ing.name
              movement_type := "out"
              quantity := a
              previous_stock := prev
              new_stock := nw
              unit_cost := ing.unit_cost
              total_value := a * ing.unit_cost
              reference := "MANUAL-" ++ now },
       true)

/-- Modelled from the spec: `inventory/models.py` (the `Ingredient` and
`StockMovement` model classes) is not part of the provided source tree, so
the Stock Register `add` that a purchase-order receipt performs is taken from
the specification, §4.2: it increases the ingredient's balance by the received
quantity, updates `unit_cost` to the incoming cost (moving-current-cost
policy), and appends the corresponding `in` movement whose
`previous_stock`/`new_stock` are captured at write time. -/
def stockAdd (ing : Ingredient) (qty cost : Rat) (reference : String) :
    Ingredient × Movement :=
  let prev := ing.current_stock
  let nw := prev + qty
  ({ ing with current_stock := nw, unit_cost := cost },
   { ingredientName := ing.name
     movement_type := "in"
     quantity := qty
     previous_stock := prev
     new_stock := nw
     unit_cost := cost
     total_value := qty * cost
     reference := reference })

/-- One line item of a purchase order (`inventory.models.PurchaseOrderItem`):
the fields `receive_items` reads and writes. `quantity` is the ordered
quantity; `ingredientName` stands for the line's ingredient foreign key. -/
structure POItem where
  id : Nat
  ingredientName : String
  quantity : Rat
  received_quantity : Rat
  unit_cost : Rat
deriving DecidableEq

/-- A purchase order (`inventory.models.PurchaseOrder`) as `receive_items`
sees it: its number, status string and line items. -/
structure PurchaseOrder where
  po_number : String
  status : String
  items : List POItem
deriving DecidableEq

/-- One entry of the `received_items` request body of
`PurchaseOrderViewSet.receive_items`: `{'item_id': ..., 'received_quantity': ...}`. -/
structure Receipt where
  item_id : Nat
  received_quantity : Rat
deriving DecidableEq

/-- Replace the purchase-order line with the given id by its updated copy
(`po_item.save()`). -/
def updatePOItem (items : List POItem) (pid : Nat) (q : Rat) : List POItem :=
  items.map (fun j => if j.id = pid then { j with received_quantity := q } else j)

/-- One iteration of the receipt loop of `receive_items`
(`inventory/views.py` lines 834–858): look the line up by id within this
purchase order (a missing line is skipped, `DoesNotExist → continue`),
overwrite its received quantity, and if the received quantity is positive
apply the Stock Register add with reference `PO #<number>`, appending the
`in` movement. -/
def receiveOne (st : PurchaseOrder × List Ingredient × List Movement)
    (r : Receipt) : PurchaseOrder × List Ingredient × List Movement :=
  match st.1.items.find? (fun it => it.id = r.item_id) with
  | none => st
  | some it =>
    let po' := { st.1 with items := updatePOItem st.1.items r.item_id r.received_quantity }
    if 0 < r.received_quantity then
      match findIngredient st.2.1 it.ingredientName with
      | some ing =>
        let a := stockAdd ing r.received_quantity it.unit_cost ("PO #" ++ st.1.po_number)
        (po', updateIngredient st.2.1 a.1, st.2.2 ++ [a.2])
      | none => (po', st.2.1, st.2.2)
    else (po', st.2.1, st.2.2)

/-- `PurchaseOrderViewSet.receive_items` (`inventory/views.py` lines
834–872): apply every receipt line, then recompute the status — `received`
when every line's received quantity has reached its ordered quantity,
otherwise the status is left as it was. -/
def receive_items (po : PurchaseOrder) (inv : List Ingredient)
    (ledger : List Movement) (receipts : List Receipt) :
    PurchaseOrder × List Ingredient × List Movement :=
  let st := receipts.foldl receiveOne (po, inv, ledger)
  if st.1.items.all (fun it => it.quantity ≤ it.received_quantity) then
    ({ st.1 with status := "received" }, st.2)
  else st

/-- A stock-affecting operation against one ingredient's register row, as the
three code paths perform it: the per-line automatic order deduction from
`orders/signals.py`, the manual deduction endpoint, and the purchase-order
receipt of a line for this ingredient (the movement is only written when the
received quantity is positive, as in `receive_items`). -/
inductive RegOp where
  | orderLine : Rat → String → RegOp
  | manual : Amount → String → RegOp
  | receiveLine : Rat → Rat → String → RegOp
deriving DecidableEq

/-- The effect of one register operation on one ingredient and its movement
ledger (movements for this ingredient, in creation order). -/
def stepReg (s : Ingredient × List Movement) (op : RegOp) :
    Ingredient × List Movement :=
  match op with
  | .orderLine needed orderNumber =>
    let r := orderLineDeduct s.1 needed orderNumber
    (r.1, s.2 ++ r.2.1.toList)
  | .manual amount now =>
    let r := deduct_stock s.1 amount now
    (r.1, s.2 ++ r.2.1.toList)
  | .receiveLine qty cost reference =>
    if 0 < qty then
      let a := stockAdd s.1 qty cost reference
      (a.1, s.2 ++ [a.2])
    else s

/-- A sequence of register operations applied in order. -/
def runOps (s : Ingredient × List Movement) (ops : List RegOp) :
    Ingredient × List Movement :=
  ops.foldl stepReg s

/-- One row of a recipe's ingredient list
(`inventory.models.RecipeIngredient`) as `check_availability` reads it: the
per-serving quantity and the linked ingredient row. -/
structure RecipeIngredient where
  ingredient : Ingredient
  quantity : Rat
deriving DecidableEq

/-- One entry of the `unavailable_ingredients` list that
`check_availability` returns. -/
structure Shortage where
  ingredient : String
  required : Rat
  available : Rat
  shortage : Rat
deriving DecidableEq

/-- `RecipeViewSet.check_availability` (`inventory/views.py` lines 898–922):
for each recipe ingredient compare `quantity * servings` with the linked
ingredient's current stock, collecting a shortage entry when stock is
strictly smaller; the whole recipe is available iff no entry was collected. -/
def check_availability (ris : List RecipeIngredient) (servings : Rat) :
    Bool × List Shortage :=
  let shorts := ris.filterMap (fun ri =>
    let required := ri.quantity * servings
    let available := ri.ingredient.current_stock
    if available < required then
      some { ingredient := ri.ingredient.name
             required := required
             available := available
             shortage := required - available }
    else none)
  (shorts.isEmpty, shorts)

/-- Per-movement balance consistency: every recorded movement satisfies
`new_stock = previous_stock + signed(quantity, kind)`. -/
def deltaOk (ms : List Movement) : Prop :=
  ∀ m ∈ ms, m.new_stock = m.previous_stock + signedDelta m

/-- Ledger chaining: in creation order, the `new_stock` of each movement
equals the `previous_stock` of the next. -/
def chainOk : List Movement → Prop
  | [] => True
  | [_] => True
  | a :: b :: rest => a.new_stock = b.previous_stock ∧ chainOk (b :: rest)

/-- The link between the ledger and the register: the most recent movement's
`new_stock` (when one exists) equals the ingredient's current balance. -/
def lastOk (s : Ingredient × List Movement) : Prop :=
  ∀ m, s.2.getLast? = some m → m.new_stock = s.1.current_stock

/-- The full ledger invariant carried through the induction. -/
def ledgerInv (s : Ingredient × List Movement) : Prop :=
  deltaOk s.2 ∧ chainOk s.2 ∧ lastOk s

/-- Concrete fixture: an ingredient holding 10 units, matching the spec's
"Flour starts at 10 kg, minimum 2 kg" scenario. -/
def flour10 : Ingredient := ⟨"Flour", 10, 2, 1⟩

/-- Concrete fixture: a cake whose recipe consumes 1 kg of flour. -/
def chocCake : Cake := ⟨"Chocolate Cake", [⟨"Flour", 1, "kg"⟩]⟩

/-- Concrete fixture: a confirmed order for one such cake. -/
def order1 : Order := ⟨1, "N1", "confirmed", [⟨chocCake, 1⟩]⟩

end SweetBite

namespace SweetBite

theorem orderLineDeduct_stock_nonneg (ing : Ingredient) (needed : Rat) (num : String)
    (h : 0 ≤ ing.current_stock) : 0 ≤ (orderLineDeduct ing needed num).1.current_stock := by
  unfold orderLineDeduct
  dsimp only
  split <;> split <;> dsimp only <;>
    first
      | exact le_max_left 0 _
      | exact h

theorem deduct_stock_stock_nonneg (ing : Ingredient) (amount : Amount) (now : String)
    (h : 0 ≤ ing.current_stock) : 0 ≤ (deduct_stock ing amount now).1.current_stock := by
  cases amount with
  | missing => exact h
  | nonNumeric => exact h
  | num a =>
    unfold deduct_stock
    dsimp only
    by_cases h1 : a ≤ 0
    · rw [if_pos h1]; exact h
    · rw [if_neg h1]
      by_cases h2 : ing.current_stock < a
      · rw [if_pos h2]; exact h
      · rw [if_neg h2]
        exact sub_nonneg.mpr (not_lt.mp h2)

theorem stepReg_nonneg (s : Ingredient × List Movement) (op : RegOp)
    (h : 0 ≤ s.1.current_stock) : 0 ≤ (stepReg s op).1.current_stock := by
  cases op with
  | orderLine needed num => exact orderLineDeduct_stock_nonneg s.1 needed num h
  | manual amount now => exact deduct_stock_stock_nonneg s.1 amount now h
  | receiveLine qty cost reference =>
    unfold stepReg
    dsimp only
    by_cases hq : 0 < qty
    · rw [if_pos hq]
      exact add_nonneg h hq.le
    · rw [if_neg hq]; exact h

end SweetBite

namespace SweetBite

/-- C3: for every ingredient and every sequence of deduct and add operations,
whatever the requested deduction sizes, the ingredient's `current_stock`
stays nonnegative: the automatic order deduction clamps to the available
stock, the manual endpoint rejects requests exceeding it, and receipts only
add. -/
theorem C3_stock_never_negative (s : Ingredient × List Movement)
    (ops : List RegOp) (h : 0 ≤ s.1.current_stock) :
    0 ≤ (runOps s ops).1.current_stock := by
  induction ops generalizing s with
  | nil => exact h
  | cons op rest ih => exact ih (stepReg s op) (stepReg_nonneg s op h)

/-- C3 witness: a concrete run mixing an oversized order deduction, a manual
deduction and a receipt keeps the balance nonnegative. -/
theorem C3_witness :
    0 ≤ (runOps (flour10, [])
      [.orderLine 12 "41", .manual (.num 5) "t1", .receiveLine 3 2 "PO #7"]).1.current_stock :=
  C3_stock_never_negative (flour10, []) _ (by decide)

/-- C1 counterexample: the claim covers the manual deduct-stock endpoint as
well, but that endpoint does not clamp an oversized request — deducting 12
from a balance of 10 is rejected outright, applying nothing, rather than
applying 10 with a shortage of 2. -/
theorem C1_counterexample :
    deduct_stock flour10 (.num 12) "20250101120000" = (flour10, none, false) := by
  decide

/-- C1 (amended): the automatic order-driven deduction clamps an oversized
request to the current stock, drives the balance to zero, records the applied
amount in the `out` movement, reports the shortage `requested - available`,
and does not fail; the manual deduct-stock endpoint instead rejects such a
request, leaving the ingredient untouched. -/
theorem C1_clamp_and_manual_reject (ing : Ingredient) (needed : Rat)
    (num now : String) (h0 : 0 < ing.current_stock)
    (h : ing.current_stock < needed) :
    (orderLineDeduct ing needed num).1.current_stock = 0 ∧
    (orderLineDeduct ing needed num).2.1 =
      some { ingredientName := ing.name
             movement_type := "out"
             quantity := ing.current_stock
             previous_stock := ing.current_stock
             new_stock := 0
             unit_cost := ing.unit_cost
             total_value := ing.current_stock * ing.unit_cost
             reference := "ORDER-" ++ num } ∧
    (orderLineDeduct ing needed num).2.2 = needed - ing.current_stock ∧
    deduct_stock ing (.num needed) now = (ing, none, false) := by
  have hz : max 0 (ing.current_stock - ing.current_stock) = 0 := by
    rw [sub_self, max_self]
  refine ⟨?_, ?_, ?_, ?_⟩
  · unfold orderLineDeduct
    dsimp only
    rw [if_pos h, if_pos h0, hz]
  · unfold orderLineDeduct
    dsimp only
    rw [if_pos h, if_pos h0, hz]
  · unfold orderLineDeduct
    dsimp only
    rw [if_pos h, if_pos h0, if_pos h]
  · unfold deduct_stock
    dsimp only
    rw [if_neg (not_le.mpr (h0.trans h)), if_pos h]

/-- C1 witness: the spec scenario — stock 10, request 12: the order-driven
path applies 10, ends at 0, reports shortage 2; the manual endpoint rejects. -/
theorem C1_witness :
    (orderLineDeduct flour10 12 "77").1.current_stock = 0 ∧
    (orderLineDeduct flour10 12 "77").2.1 =
      some { ingredientName := "Flour"
             movement_type := "out"
             quantity := 10
             previous_stock := 10
             new_stock := 0
             unit_cost := 1
             total_value := 10 * 1
             reference := "ORDER-" ++ "77" } ∧
    (orderLineDeduct flour10 12 "77").2.2 = 12 - 10 ∧
    deduct_stock flour10 (.num 12) "t" = (flour10, none, false) :=
  C1_clamp_and_manual_reject flour10 12 "77" "t" (by decide) (by decide)

/-- C2: the idempotency guard is the in-memory attribute
`_ingredients_deducted` on the live Order instance, not a persisted marker.
Within one process the second save of the same instance is guarded (one
movement in total), but after a restart — the in-memory flags gone — saving
the already-processed order deducts again (two movements in total), so the
qualifying transition triggered twice does not produce exactly one set of
deduction movements. -/
theorem C2_in_memory_flag_not_restart_safe :
    (deduct_ingredients_on_order_confirmation
        (deduct_ingredients_on_order_confirmation [] order1 ([flour10], [])).1
        order1
        (deduct_ingredients_on_order_confirmation [] order1 ([flour10], [])).2).2.2.length = 1 ∧
    (deduct_ingredients_on_order_confirmation [] order1
        (deduct_ingredients_on_order_confirmation [] order1 ([flour10], [])).2).2.2.length = 2 := by
  decide

/-- C10: whenever the manual deduct-stock endpoint rejects a request, the
ingredient row is unchanged and no movement record is produced. -/
theorem C10_reject_no_mutation (ing : Ingredient) (amount : Amount)
    (now : String) (h : (deduct_stock ing amount now).2.2 = false) :
    (deduct_stock ing amount now).1 = ing ∧
    (deduct_stock ing amount now).2.1 = none := by
  cases amount with
  | missing => exact ⟨rfl, rfl⟩
  | nonNumeric => exact ⟨rfl, rfl⟩
  | num a =>
    unfold deduct_stock at h ⊢
    dsimp only at h ⊢
    by_cases h1 : a ≤ 0
    · rw [if_pos h1]; exact ⟨rfl, rfl⟩
    · rw [if_neg h1] at h ⊢
      by_cases h2 : ing.current_stock < a
      · rw [if_pos h2]; exact ⟨rfl, rfl⟩
      · rw [if_neg h2] at h
        exact absurd h (by simp)

/-- C10 witness: the oversized request 12 against stock 10 is rejected and
mutates nothing. -/
theorem C10_witness :
    (deduct_stock flour10 (.num 12) "t").1 = flour10 ∧
    (deduct_stock flour10 (.num 12) "t").2.1 = none :=
  C10_reject_no_mutation flour10 (.num 12) "t" (by decide)

end SweetBite

namespace SweetBite

theorem receiveOne_po_fields (st : PurchaseOrder × List Ingredient × List Movement)
    (r : Receipt) :
    (receiveOne st r).1.status = st.1.status ∧
    (receiveOne st r).1.po_number = st.1.po_number := by
  unfold receiveOne
  dsimp only
  split
  · exact ⟨rfl, rfl⟩
  · split
    · split
      · exact ⟨rfl, rfl⟩
      · exact ⟨rfl, rfl⟩
    · exact ⟨rfl, rfl⟩

theorem foldl_receiveOne_po_fields (rs : List Receipt)
    (st : PurchaseOrder × List Ingredient × List Movement) :
    (rs.foldl receiveOne st).1.status = st.1.status ∧
    (rs.foldl receiveOne st).1.po_number = st.1.po_number := by
  induction rs generalizing st with
  | nil => exact ⟨rfl, rfl⟩
  | cons r rest ih =>
    refine ⟨?_, ?_⟩
    · exact ((ih (receiveOne st r)).1).trans (receiveOne_po_fields st r).1
    · exact ((ih (receiveOne st r)).2).trans (receiveOne_po_fields st r).2

/-- C7: after a receipt is applied, the status is set to `received` exactly
when every line's received quantity has reached its ordered quantity; when
some line is still short the status field is left as it was before the call. -/
theorem C7_received_iff_complete (po : PurchaseOrder) (inv : List Ingredient)
    (led : List Movement) (receipts : List Receipt) :
    ((∀ it ∈ (receive_items po inv led receipts).1.items,
        it.quantity ≤ it.received_quantity) →
      (receive_items po inv led receipts).1.status = "received") ∧
    ((∃ it ∈ (receive_items po inv led receipts).1.items,
        it.received_quantity < it.quantity) →
      (receive_items po inv led receipts).1.status = po.status) := by
  unfold receive_items
  dsimp only
  by_cases hall :
      ((receipts.foldl receiveOne (po, inv, led)).1.items.all
        (fun it => it.quantity ≤ it.received_quantity)) = true
  · rw [if_pos hall]
    dsimp only
    constructor
    · intro _
      rfl
    · rintro ⟨it, hmem, hlt⟩
      have := of_decide_eq_true (List.all_eq_true.mp hall it hmem)
      exact absurd this (not_le.mpr hlt)
  · rw [if_neg hall]
    constructor
    · intro h
      exact absurd (List.all_eq_true.mpr (fun it hmem => decide_eq_true (h it hmem))) hall
    · intro _
      exact (foldl_receiveOne_po_fields receipts (po, inv, led)).1

/-- C7 witness: a one-line purchase order received short (10 of 20) keeps its
prior status `sent`. -/
theorem C7_witness :
    (receive_items ⟨"P1", "sent", [⟨1, "Sugar", 20, 0, 3⟩]⟩ [⟨"Sugar", 0, 0, 2⟩] [] [⟨1, 10⟩]).1.status
      = "sent" :=
  (C7_received_iff_complete ⟨"P1", "sent", [⟨1, "Sugar", 20, 0, 3⟩]⟩ [⟨"Sugar", 0, 0, 2⟩] [] [⟨1, 10⟩]).2
    (by decide)

end SweetBite

namespace SweetBite

/-- C8: the availability check returns `available = true` exactly when no
recipe ingredient's scaled requirement exceeds its current stock; every
reported shortage entry carries `shortfall = required - available`, and every
insufficient ingredient is reported with its required quantity, its stock and
the gap between them. -/
theorem C8_availability (ris : List RecipeIngredient) (servings : Rat) :
    ((check_availability ris servings).1 = true ↔
      ∀ ri ∈ ris, ri.quantity * servings ≤ ri.ingredient.current_stock) ∧
    (∀ s ∈ (check_availability ris servings).2,
      s.shortage = s.required - s.available) ∧
    (∀ ri ∈ ris, ri.ingredient.current_stock < ri.quantity * servings →
      ({ ingredient := ri.ingredient.name
         required := ri.quantity * servings
         available := ri.ingredient.current_stock
         shortage := ri.quantity * servings - ri.ingredient.current_stock } : Shortage)
        ∈ (check_availability ris servings).2) := by
  unfold check_availability
  dsimp only
  refine ⟨?_, ?_, ?_⟩
  · rw [List.isEmpty_iff, List.filterMap_eq_nil_iff]
    constructor
    · intro h ri hri
      have := h ri hri
      by_cases hlt : ri.ingredient.current_stock < ri.quantity * servings
      · rw [if_pos hlt] at this
        exact absurd this (by simp)
      · exact not_lt.mp hlt
    · intro h ri hri
      rw [if_neg (not_lt.mpr (h ri hri))]
  · intro s hs
    rcases List.mem_filterMap.mp hs with ⟨ri, _, hf⟩
    by_cases hlt : ri.ingredient.current_stock < ri.quantity * servings
    · rw [if_pos hlt] at hf
      cases hf
      rfl
    · rw [if_neg hlt] at hf
      exact absurd hf (by simp)
  · intro ri hri hlt
    exact List.mem_filterMap.mpr ⟨ri, hri, by rw [if_pos hlt]⟩

/-- C8 witness: the spec scenario — 0.5 kg Flour and 3 Eggs per serving,
4 servings, stock 1.5 kg Flour and 20 Eggs — is not available, and the
shortage list is exactly Flour: required 2, available 1.5, shortfall 0.5. -/
theorem C8_witness :
    (check_availability [⟨⟨"Flour", 3/2, 0, 1⟩, 1/2⟩, ⟨⟨"Eggs", 20, 0, 1⟩, 3⟩] 4).1 = false ∧
    (check_availability [⟨⟨"Flour", 3/2, 0, 1⟩, 1/2⟩, ⟨⟨"Eggs", 20, 0, 1⟩, 3⟩] 4).2
      = [⟨"Flour", 2, 3/2, 1/2⟩] := by
  constructor
  · refine Bool.eq_false_iff.mpr (fun ht => ?_)
    have h := (C8_availability [⟨⟨"Flour", 3/2, 0, 1⟩, 1/2⟩, ⟨⟨"Eggs", 20, 0, 1⟩, 3⟩] 4).1.mp ht
      ⟨⟨"Flour", 3/2, 0, 1⟩, 1/2⟩ (by decide)
    exact absurd h (by decide)
  · decide

end SweetBite

namespace SweetBite

theorem findIngredient_updateIngredient (inv : List Ingredient) (nm : String)
    (ing upd : Ingredient) (hn : upd.name = ing.name)
    (h : findIngredient inv nm = some ing) :
    findIngredient (updateIngredient inv upd) nm = some upd := by
  induction inv with
  | nil => exact absurd h (by simp [findIngredient])
  | cons i rest ih =>
    by_cases hb : (lowerName i.name == lowerName nm) = true
    · have h1 : i = ing := by
        unfold findIngredient at h
        rw [List.find?_cons_of_pos rest hb] at h
        exact Option.some.inj h
      have hlow : lowerName upd.name = lowerName nm := by
        rw [hn, ← h1]
        exact eq_of_beq hb
      have hcond : (lowerName i.name == lowerName upd.name) = true := by
        rw [beq_iff_eq, eq_of_beq hb, hlow]
      show findIngredient ((if (lowerName i.name == lowerName upd.name) = true then upd else i)
          :: updateIngredient rest upd) nm = some upd
      rw [if_pos hcond]
      unfold findIngredient
      exact List.find?_cons_of_pos _ (by rw [beq_iff_eq]; exact hlow)
    · have h2 : findIngredient rest nm = some ing := by
        unfold findIngredient at h ⊢
        rw [List.find?_cons_of_neg rest hb] at h
        exact h
      have hing : (lowerName ing.name == lowerName nm) = true := by
        have := List.find?_some h2
        exact this
      have hcond : ¬ (lowerName i.name == lowerName upd.name) = true := by
        intro hc
        apply hb
        rw [beq_iff_eq] at hc ⊢
        rw [hc, hn]
        exact eq_of_beq hing
      show findIngredient ((if (lowerName i.name == lowerName upd.name) = true then upd else i)
          :: updateIngredient rest upd) nm = some upd
      rw [if_neg hcond]
      unfold findIngredient
      rw [List.find?_cons_of_neg (p := fun j => lowerName j.name == lowerName nm)
        (a := i) (updateIngredient rest upd) hb]
      exact ih h2

end SweetBite

namespace SweetBite

/-- C5: receiving a purchase-order line with a positive received quantity
performs the Stock Register add — the ingredient's balance grows by the
received quantity and its `unit_cost` becomes the line's incoming cost — and
appends an `in` movement whose reference is `PO #<number>`. -/
theorem C5_receipt_adds_stock (po : PurchaseOrder) (inv : List Ingredient)
    (led : List Movement) (r : Receipt) (it : POItem) (ing : Ingredient)
    (hit : po.items.find? (fun j => j.id = r.item_id) = some it)
    (hing : findIngredient inv it.ingredientName = some ing)
    (hq : 0 < r.received_quantity) :
    findIngredient (receiveOne (po, inv, led) r).2.1 it.ingredientName =
      some { ing with
             current_stock := ing.current_stock + r.received_quantity
             unit_cost := it.unit_cost } ∧
    (receiveOne (po, inv, led) r).2.2 =
      led ++ [{ ingredientName := ing.name
                movement_type := "in"
                quantity := r.received_quantity
                previous_stock := ing.current_stock
                new_stock := ing.current_stock + r.received_quantity
                unit_cost := it.unit_cost
                total_value := r.received_quantity * it.unit_cost
                reference := "PO #" ++ po.po_number }] := by
  unfold receiveOne
  dsimp only
  rw [hit]
  dsimp only
  rw [if_pos hq, hing]
  dsimp only
  unfold stockAdd
  dsimp only
  exact ⟨findIngredient_updateIngredient inv it.ingredientName ing _ rfl hing, rfl⟩

/-- C5 witness: receiving 10 Sugar at cost 3 on PO P9 raises the Sugar
balance from 5 to 15, sets its unit cost to 3, and appends the `in` movement
referencing `PO #P9`. -/
theorem C5_witness :
    findIngredient
        (receiveOne (⟨"P9", "sent", [⟨1, "Sugar", 20, 0, 3⟩]⟩, [⟨"Sugar", 5, 0, 2⟩], []) ⟨1, 10⟩).2.1
        "Sugar" = some ⟨"Sugar", 5 + 10, 0, 3⟩ ∧
    (receiveOne (⟨"P9", "sent", [⟨1, "Sugar", 20, 0, 3⟩]⟩, [⟨"Sugar", 5, 0, 2⟩], []) ⟨1, 10⟩).2.2 =
      [{ ingredientName := "Sugar"
         movement_type := "in"
         quantity := 10
         previous_stock := 5
         new_stock := 5 + 10
         unit_cost := 3
         total_value := 10 * 3
         reference := "PO #" ++ "P9" }] :=
  C5_receipt_adds_stock ⟨"P9", "sent", [⟨1, "Sugar", 20, 0, 3⟩]⟩ [⟨"Sugar", 5, 0, 2⟩] []
    ⟨1, 10⟩ ⟨1, "Sugar", 20, 0, 3⟩ ⟨"Sugar", 5, 0, 2⟩ (by decide) (by decide) (by decide)

end SweetBite

namespace SweetBite

theorem find_updatePOItem (items : List POItem) (pid : Nat) (q : Rat)
    (it : POItem) (h : items.find? (fun j => j.id = pid) = some it) :
    (updatePOItem items pid q).find? (fun j => j.id = pid) =
      some { it with received_quantity := q } := by
  induction items with
  | nil => exact absurd h (by simp)
  | cons i rest ih =>
    by_cases hb : i.id = pid
    · have h1 : i = it := by
        rw [List.find?_cons_of_pos rest (decide_eq_true hb)] at h
        exact Option.some.inj h
      show ((if i.id = pid then { i with received_quantity := q } else i)
          :: updatePOItem rest pid q).find? (fun j => j.id = pid) =
        some { it with received_quantity := q }
      rw [if_pos hb, h1]
      exact List.find?_cons_of_pos _ (decide_eq_true (h1 ▸ hb))
    · have h2 : rest.find? (fun j => j.id = pid) = some it := by
        rw [List.find?_cons_of_neg rest (fun hc => hb (of_decide_eq_true hc))] at h
        exact h
      show ((if i.id = pid then { i with received_quantity := q } else i)
          :: updatePOItem rest pid q).find? (fun j => j.id = pid) =
        some { it with received_quantity := q }
      rw [if_neg hb,
        List.find?_cons_of_neg (updatePOItem rest pid q) (fun hc => hb (of_decide_eq_true hc))]
      exact ih h2

theorem receive_items_singleton (po : PurchaseOrder) (inv : List Ingredient)
    (led : List Movement) (r : Receipt) :
    (receive_items po inv led [r]).1.items = (receiveOne (po, inv, led) r).1.items ∧
    (receive_items po inv led [r]).2 = (receiveOne (po, inv, led) r).2 := by
  unfold receive_items
  dsimp only [List.foldl]
  split
  · exact ⟨rfl, rfl⟩
  · exact ⟨rfl, rfl⟩

theorem receiveOne_components (po : PurchaseOrder) (inv : List Ingredient)
    (led : List Movement) (r : Receipt) (it : POItem) (ing : Ingredient)
    (hit : po.items.find? (fun j => j.id = r.item_id) = some it)
    (hing : findIngredient inv it.ingredientName = some ing)
    (hq : 0 < r.received_quantity) :
    (receiveOne (po, inv, led) r).1.items =
      updatePOItem po.items r.item_id r.received_quantity ∧
    (receiveOne (po, inv, led) r).2.1 =
      updateIngredient inv
        (stockAdd ing r.received_quantity it.unit_cost ("PO #" ++ po.po_number)).1 ∧
    (receiveOne (po, inv, led) r).2.2 =
      led ++ [(stockAdd ing r.received_quantity it.unit_cost ("PO #" ++ po.po_number)).2] := by
  unfold receiveOne
  dsimp only
  rw [hit]
  dsimp only
  rw [if_pos hq, hing]
  exact ⟨rfl, rfl, rfl⟩

/-- C6 counterexample: repeating the receipt of 10 Sugar on the same line is
not a no-op — the second call appends a second `in` movement, so the ledger
differs from its state after the first call. -/
theorem C6_counterexample :
    (receive_items
        (receive_items ⟨"P9", "sent", [⟨1, "Sugar", 20, 0, 3⟩]⟩ [⟨"Sugar", 0, 0, 2⟩] [] [⟨1, 10⟩]).1
        (receive_items ⟨"P9", "sent", [⟨1, "Sugar", 20, 0, 3⟩]⟩ [⟨"Sugar", 0, 0, 2⟩] [] [⟨1, 10⟩]).2.1
        (receive_items ⟨"P9", "sent", [⟨1, "Sugar", 20, 0, 3⟩]⟩ [⟨"Sugar", 0, 0, 2⟩] [] [⟨1, 10⟩]).2.2
        [⟨1, 10⟩]).2.2
      ≠ (receive_items ⟨"P9", "sent", [⟨1, "Sugar", 20, 0, 3⟩]⟩ [⟨"Sugar", 0, 0, 2⟩] [] [⟨1, 10⟩]).2.2 := by
  decide

/-- C6 (amended): receiving a line sets its received-quantity by last write
(the stored value is the request's value, independent of the prior one, so a
repeated call with the same value leaves the line itself unchanged) — but the
repeated call is not a no-op: whenever the received quantity is positive it
re-applies the stock add and appends one more `in` movement to the ledger. -/
theorem C6_last_write_not_ledger_noop (po : PurchaseOrder) (inv : List Ingredient)
    (led : List Movement) (r : Receipt) (it : POItem) (ing : Ingredient)
    (hit : po.items.find? (fun j => j.id = r.item_id) = some it)
    (hing : findIngredient inv it.ingredientName = some ing)
    (hq : 0 < r.received_quantity) :
    (receive_items po inv led [r]).1.items.find? (fun j => j.id = r.item_id) =
      some { it with received_quantity := r.received_quantity } ∧
    (receive_items (receive_items po inv led [r]).1 (receive_items po inv led [r]).2.1
        (receive_items po inv led [r]).2.2 [r]).1.items.find? (fun j => j.id = r.item_id) =
      some { it with received_quantity := r.received_quantity } ∧
    (receive_items (receive_items po inv led [r]).1 (receive_items po inv led [r]).2.1
        (receive_items po inv led [r]).2.2 [r]).2.2.length =
      (receive_items po inv led [r]).2.2.length + 1 := by
  obtain ⟨hA1, hB1⟩ := receive_items_singleton po inv led r
  obtain ⟨hc1, hc2, hc3⟩ := receiveOne_components po inv led r it ing hit hing hq
  have ha : (receive_items po inv led [r]).1.items.find? (fun j => j.id = r.item_id) =
      some { it with received_quantity := r.received_quantity } := by
    rw [hA1, hc1]
    exact find_updatePOItem po.items r.item_id r.received_quantity it hit
  have hing2 : findIngredient (receive_items po inv led [r]).2.1
      ({ it with received_quantity := r.received_quantity } : POItem).ingredientName =
      some (stockAdd ing r.received_quantity it.unit_cost ("PO #" ++ po.po_number)).1 := by
    have := findIngredient_updateIngredient inv it.ingredientName ing
      (stockAdd ing r.received_quantity it.unit_cost ("PO #" ++ po.po_number)).1 rfl hing
    rw [hB1]
    rw [hc2]
    exact this
  obtain ⟨hA2, hB2⟩ := receive_items_singleton (receive_items po inv led [r]).1
    (receive_items po inv led [r]).2.1 (receive_items po inv led [r]).2.2 r
  obtain ⟨hd1, hd2, hd3⟩ := receiveOne_components (receive_items po inv led [r]).1
    (receive_items po inv led [r]).2.1 (receive_items po inv led [r]).2.2 r
    { it with received_quantity := r.received_quantity }
    (stockAdd ing r.received_quantity it.unit_cost ("PO #" ++ po.po_number)).1
    ha hing2 hq
  refine ⟨ha, ?_, ?_⟩
  · rw [hA2, hd1]
    exact find_updatePOItem (receive_items po inv led [r]).1.items r.item_id
      r.received_quantity { it with received_quantity := r.received_quantity } ha
  · have hl := (congrArg Prod.snd hB2).trans hd3
    rw [hl]
    simp

/-- C6 witness: Sugar ordered 20, received twice with the same value 10 —
the line still reads 10 after each call, while the second call appends a
second movement. -/
theorem C6_witness :
    (receive_items ⟨"P9", "sent", [⟨1, "Sugar", 20, 0, 3⟩]⟩ [⟨"Sugar", 0, 0, 2⟩] [] [⟨1, 10⟩]).1.items.find?
        (fun j => j.id = (1:Nat)) = some ⟨1, "Sugar", 20, 10, 3⟩ ∧
    (receive_items
        (receive_items ⟨"P9", "sent", [⟨1, "Sugar", 20, 0, 3⟩]⟩ [⟨"Sugar", 0, 0, 2⟩] [] [⟨1, 10⟩]).1
        (receive_items ⟨"P9", "sent", [⟨1, "Sugar", 20, 0, 3⟩]⟩ [⟨"Sugar", 0, 0, 2⟩] [] [⟨1, 10⟩]).2.1
        (receive_items ⟨"P9", "sent", [⟨1, "Sugar", 20, 0, 3⟩]⟩ [⟨"Sugar", 0, 0, 2⟩] [] [⟨1, 10⟩]).2.2
        [⟨1, 10⟩]).1.items.find? (fun j => j.id = (1:Nat)) = some ⟨1, "Sugar", 20, 10, 3⟩ ∧
    (receive_items
        (receive_items ⟨"P9", "sent", [⟨1, "Sugar", 20, 0, 3⟩]⟩ [⟨"Sugar", 0, 0, 2⟩] [] [⟨1, 10⟩]).1
        (receive_items ⟨"P9", "sent", [⟨1, "Sugar", 20, 0, 3⟩]⟩ [⟨"Sugar", 0, 0, 2⟩] [] [⟨1, 10⟩]).2.1
        (receive_items ⟨"P9", "sent", [⟨1, "Sugar", 20, 0, 3⟩]⟩ [⟨"Sugar", 0, 0, 2⟩] [] [⟨1, 10⟩]).2.2
        [⟨1, 10⟩]).2.2.length =
      (receive_items ⟨"P9", "sent", [⟨1, "Sugar", 20, 0, 3⟩]⟩ [⟨"Sugar", 0, 0, 2⟩] [] [⟨1, 10⟩]).2.2.length + 1 :=
  C6_last_write_not_ledger_noop ⟨"P9", "sent", [⟨1, "Sugar", 20, 0, 3⟩]⟩ [⟨"Sugar", 0, 0, 2⟩] []
    ⟨1, 10⟩ ⟨1, "Sugar", 20, 0, 3⟩ ⟨"Sugar", 0, 0, 2⟩ (by decide) (by decide) (by decide)

end SweetBite

namespace SweetBite

theorem updateIngredient_lowerNames (inv : List Ingredient) (u : Ingredient) :
    (updateIngredient inv u).map (fun i => lowerName i.name) =
      inv.map (fun i => lowerName i.name) := by
  induction inv with
  | nil => rfl
  | cons i rest ih =>
    show lowerName (if (lowerName i.name == lowerName u.name) = true then u else i).name
        :: (updateIngredient rest u).map (fun j => lowerName j.name) =
      lowerName i.name :: rest.map (fun j => lowerName j.name)
    by_cases hb : (lowerName i.name == lowerName u.name) = true
    · rw [if_pos hb, ih]
      exact congrArg (· :: _) (eq_of_beq hb).symm
    · rw [if_neg hb, ih]

theorem findIngredient_none_of_lowerNames (inv inv' : List Ingredient) (nm : String)
    (hmap : inv'.map (fun i => lowerName i.name) = inv.map (fun i => lowerName i.name))
    (h : findIngredient inv nm = none) : findIngredient inv' nm = none := by
  unfold findIngredient at h ⊢
  rw [List.find?_eq_none] at h ⊢
  intro x hx hbx
  have hmem : lowerName x.name ∈ inv.map (fun i => lowerName i.name) := by
    rw [← hmap]
    exact List.mem_map_of_mem (fun i => lowerName i.name) hx
  rcases List.mem_map.mp hmem with ⟨y, hy, hfy⟩
  exact h y hy (beq_iff_eq.mpr (hfy.trans (eq_of_beq hbx)))

theorem deductLine_lowerNames (q : Rat) (num : String)
    (st : List Ingredient × List Movement) (line : RecipeLine) :
    ((deductLine q num st line).1).map (fun i => lowerName i.name) =
      st.1.map (fun i => lowerName i.name) := by
  unfold deductLine
  dsimp only
  split
  · rfl
  · split
    · rfl
    · split
      · rfl
      · exact updateIngredient_lowerNames st.1 _

theorem foldl_deductLine_lowerNames (q : Rat) (num : String) (lines : List RecipeLine)
    (st : List Ingredient × List Movement) :
    ((lines.foldl (deductLine q num) st).1).map (fun i => lowerName i.name) =
      st.1.map (fun i => lowerName i.name) := by
  induction lines generalizing st with
  | nil => rfl
  | cons l rest ih =>
    exact (ih (deductLine q num st l)).trans (deductLine_lowerNames q num st l)

theorem deductLine_skip (q : Rat) (num : String)
    (st : List Ingredient × List Movement) (line : RecipeLine)
    (h : findIngredient st.1 line.name = none) : deductLine q num st line = st := by
  unfold deductLine
  dsimp only
  split
  · rfl
  · rw [h]

theorem deduct_for_cake_eq_foldl (nm : String) (ls : List RecipeLine) (qty : Rat)
    (num : String) (st : List Ingredient × List Movement) :
    deduct_ingredients_for_cake ⟨nm, ls⟩ qty num st = ls.foldl (deductLine qty num) st := by
  unfold deduct_ingredients_for_cake
  dsimp only
  split
  · next hemp =>
    rw [List.isEmpty_iff.mp hemp]
    rfl
  · rfl

/-- C9: a line item whose cake has no ingredient list is skipped with a
warning, leaving the state untouched, and a recipe line whose ingredient name
resolves to no known ingredient is skipped, leaving the processing of every
other line of the recipe unchanged — neither aborts the run. -/
theorem C9_missing_skipped (st : List Ingredient × List Movement) (nm1 nm2 : String)
    (qty : Rat) (num : String) (l1 l2 : List RecipeLine) (line : RecipeLine)
    (hmiss : findIngredient st.1 line.name = none) :
    deduct_ingredients_for_cake ⟨nm1, []⟩ qty num st = st ∧
    deduct_ingredients_for_cake ⟨nm2, l1 ++ line :: l2⟩ qty num st =
      deduct_ingredients_for_cake ⟨nm2, l1 ++ l2⟩ qty num st := by
  refine ⟨rfl, ?_⟩
  rw [deduct_for_cake_eq_foldl, deduct_for_cake_eq_foldl]
  rw [List.foldl_append, List.foldl_append, List.foldl_cons]
  have hnone : findIngredient ((l1.foldl (deductLine qty num) st).1) line.name = none :=
    findIngredient_none_of_lowerNames st.1 _ line.name
      (foldl_deductLine_lowerNames qty num l1 st) hmiss
  rw [deductLine_skip qty num _ line hnone]

/-- C9 witness: a cake with no ingredients leaves the inventory alone, and a
recipe containing the unknown "Unicorn Dust" line deducts exactly as the same
recipe without it. -/
theorem C9_witness :
    deduct_ingredients_for_cake ⟨"Mystery", []⟩ 1 "9" ([flour10], []) = ([flour10], []) ∧
    deduct_ingredients_for_cake
        ⟨"Chocolate Cake", [⟨"Flour", 1, "kg"⟩, ⟨"Unicorn Dust", 2, "kg"⟩]⟩ 1 "9" ([flour10], []) =
      deduct_ingredients_for_cake ⟨"Chocolate Cake", [⟨"Flour", 1, "kg"⟩]⟩ 1 "9" ([flour10], []) :=
  C9_missing_skipped ([flour10], []) "Mystery" "Chocolate Cake" 1 "9"
    [⟨"Flour", 1, "kg"⟩] [] ⟨"Unicorn Dust", 2, "kg"⟩ (by decide)

end SweetBite

namespace SweetBite

theorem chainOk_concat (ms : List Movement) (m : Movement) (hc : chainOk ms)
    (hl : ∀ l, ms.getLast? = some l → l.new_stock = m.previous_stock) :
    chainOk (ms ++ [m]) := by
  induction ms with
  | nil => trivial
  | cons a rest ih =>
    cases rest with
    | nil =>
      exact ⟨hl a rfl, trivial⟩
    | cons b rest2 =>
      refine ⟨hc.1, ?_⟩
      refine ih hc.2 (fun l hlast => hl l ?_)
      rw [List.getLast?_cons_cons]
      exact hlast

theorem deltaOk_concat (ms : List Movement) (m : Movement) (h : deltaOk ms)
    (hm : m.new_stock = m.previous_stock + signedDelta m) : deltaOk (ms ++ [m]) := by
  intro x hx
  rcases List.mem_append.mp hx with h1 | h1
  · exact h x h1
  · rw [List.mem_singleton.mp h1]
    exact hm

theorem ledgerInv_append (s : Ingredient × List Movement) (ing' : Ingredient)
    (m : Movement) (hinv : ledgerInv s)
    (hprev : m.previous_stock = s.1.current_stock)
    (hnew : m.new_stock = ing'.current_stock)
    (hdelta : m.new_stock = m.previous_stock + signedDelta m) :
    ledgerInv (ing', s.2 ++ [m]) := by
  refine ⟨deltaOk_concat s.2 m hinv.1 hdelta,
    chainOk_concat s.2 m hinv.2.1 (fun l hlast => (hinv.2.2 l hlast).trans hprev.symm), ?_⟩
  intro x hx
  rw [List.getLast?_concat] at hx
  rw [← Option.some.inj hx]
  exact hnew

theorem stepReg_ledgerInv (s : Ingredient × List Movement) (op : RegOp)
    (h : ledgerInv s) : ledgerInv (stepReg s op) := by
  cases op with
  | orderLine needed num =>
    unfold stepReg orderLineDeduct
    dsimp only
    by_cases h1 : s.1.current_stock < needed
    · rw [if_pos h1]
      by_cases h2 : 0 < s.1.current_stock
      · rw [if_pos h2]
        dsimp only [Option.toList]
        refine ledgerInv_append s _ _ h rfl rfl ?_
        show max 0 (s.1.current_stock - s.1.current_stock) =
          s.1.current_stock + signedDelta _
        rw [sub_self, max_self]
        unfold signedDelta
        rw [if_neg (by decide : ¬("out" = "in"))]
        dsimp only
        rw [add_neg_cancel]
      · rw [if_neg h2]
        dsimp only [Option.toList]
        rw [List.append_nil]
        exact h
    · rw [if_neg h1]
      by_cases h2 : 0 < needed
      · rw [if_pos h2]
        dsimp only [Option.toList]
        refine ledgerInv_append s _ _ h rfl rfl ?_
        show max 0 (s.1.current_stock - needed) = s.1.current_stock + signedDelta _
        rw [max_eq_right (sub_nonneg.mpr (not_lt.mp h1))]
        unfold signedDelta
        rw [if_neg (by decide : ¬("out" = "in"))]
        dsimp only
        rw [sub_eq_add_neg]
      · rw [if_neg h2]
        dsimp only [Option.toList]
        rw [List.append_nil]
        exact h
  | manual amount now =>
    cases amount with
    | missing =>
      show ledgerInv (s.1, s.2 ++ [])
      rw [List.append_nil]
      exact h
    | nonNumeric =>
      show ledgerInv (s.1, s.2 ++ [])
      rw [List.append_nil]
      exact h
    | num a =>
      unfold stepReg deduct_stock
      dsimp only
      by_cases h1 : a ≤ 0
      · rw [if_pos h1]
        dsimp only [Option.toList]
        rw [List.append_nil]
        exact h
      · rw [if_neg h1]
        by_cases h2 : s.1.current_stock < a
        · rw [if_pos h2]
          dsimp only [Option.toList]
          rw [List.append_nil]
          exact h
        · rw [if_neg h2]
          dsimp only [Option.toList]
          refine ledgerInv_append s _ _ h rfl rfl ?_
          show s.1.current_stock - a = s.1.current_stock + signedDelta _
          unfold signedDelta
          rw [if_neg (by decide : ¬("out" = "in"))]
          dsimp only
          rw [sub_eq_add_neg]
  | receiveLine qty cost reference =>
    unfold stepReg
    dsimp only
    by_cases hq : 0 < qty
    · rw [if_pos hq]
      unfold stockAdd
      dsimp only
      refine ledgerInv_append s _ _ h rfl rfl ?_
      show s.1.current_stock + qty = s.1.current_stock + signedDelta _
      unfold signedDelta
      rw [if_pos (by decide : ("in" = "in"))]
    · rw [if_neg hq]
      exact h

theorem runOps_ledgerInv (s : Ingredient × List Movement) (ops : List RegOp)
    (h : ledgerInv s) : ledgerInv (runOps s ops) := by
  induction ops generalizing s with
  | nil => exact h
  | cons op rest ih => exact ih (stepReg s op) (stepReg_ledgerInv s op h)

/-- C4: starting from an empty ledger, every sequence of automatic order
deductions, manual deductions and purchase-order receipts produces movements
that all satisfy `new_stock = previous_stock + signed(quantity, kind)` and
chain without gaps: each movement's `new_stock` is the next one's
`previous_stock` in creation order. -/
theorem C4_movement_chain (ing : Ingredient) (ops : List RegOp) :
    deltaOk (runOps (ing, []) ops).2 ∧ chainOk (runOps (ing, []) ops).2 := by
  have h0 : ledgerInv (ing, ([] : List Movement)) := by
    refine ⟨fun m hm => absurd hm (List.not_mem_nil m), trivial, fun m hm => ?_⟩
    exact absurd hm (by simp)
  have h := runOps_ledgerInv (ing, []) ops h0
  exact ⟨h.1, h.2.1⟩

end SweetBite
